import Mathlib

/-! # go-karai: the peer channel handshake of `api.go`

A shallow embedding of `channelSocketHandler` (api.go, lines 63-117) and of the
functions it calls, followed by the properties of the JOIN handshake and of the
message dispatch.

Conventions of the embedding

* A Go `[]byte` and a Go `string` are both sequences of bytes: `Bytes`.
* The file system is a finite table from path to file content: `FS`.
* `conn.WriteMessage` is recorded: the state carries the list of frames handed
  to it, oldest first.  The handler does not branch on the error `WriteMessage`
  returns: lines 108, 111 and 114 drop it and line 95 passes it to the logging
  helper `handle`, which is not in api.go and is taken to return.
* `conn.ReadMessage` is fed from a list of read results; when the list is
  exhausted the handler is blocked in `ReadMessage` and the session is open.
* Logging (`fmt.Printf`, `logrus`, `color`) has no effect on the state modelled
  here and is left out.
-/

namespace Karai

/-- A Go byte slice or string. -/
abbrev Bytes := List UInt8

/-- The conversion `[]byte("...")` of a Go string literal: its UTF-8 bytes. -/
def bytesOf (s : String) : Bytes := s.toList.flatMap String.utf8EncodeChar

/-! ## Package-level message tags (api.go, lines 26-30) -/

def joinMsg : Bytes := bytesOf "JOIN"
def castMsg : Bytes := bytesOf "CAST"
def versionMsg : Bytes := bytesOf "VERSION"
def peerMsg : Bytes := bytesOf "PEER"
def txMsg : Bytes := bytesOf "TRANSACTIONS"

/-! ## Library functions used by the handler -/

/-- Go `bytes.HasPrefix(s, prefix)`:
`len(s) >= len(prefix) && Equal(s[:len(prefix)], prefix)`. -/
def HasPrefix (s pre : Bytes) : Bool :=
  decide (pre.length ≤ s.length) && (s.take pre.length == pre)

/-- Go `bytes.TrimRight(s, cutset)` for a cutset of ASCII bytes: drop bytes from
the right end for as long as the last byte is in the cutset. -/
def TrimRight (s cutset : Bytes) : Bytes :=
  s.rdropWhile (fun b => cutset.contains b)

/-- Go `bytes.TrimLeft(s, cutset)` for a cutset of ASCII bytes: drop bytes from
the left end for as long as the first byte is in the cutset. -/
def TrimLeft (s cutset : Bytes) : Bytes :=
  s.dropWhile (fun b => cutset.contains b)

/-- The character class `[a-f0-9]`: the byte ranges `a`-`f` and `0`-`9`. -/
def inClass (b : UInt8) : Bool :=
  (decide (97 ≤ b) && decide (b ≤ 102)) || (decide (48 ≤ b) && decide (b ≤ 57))

/-- The pattern `[a-f0-9]{n}` matches at the very start of `s`: the first `n`
bytes exist and are all in the class. -/
def matchHere (n : Nat) (s : Bytes) : Bool :=
  decide ((s.take n).length = n) && (s.take n).all inClass

/-- Go `regexp.MatchString` with the pattern `[a-f0-9]{64}` of api.go line 83.
The pattern carries no anchor, so it matches when it matches at some offset of
the text.  A byte of the class is an ASCII byte and hence always a rune of its
own, so the rune-wise search of Go coincides with this byte-wise one. -/
def MatchString (s : Bytes) : Bool :=
  s.tails.any (matchHere 64)

/-- The digit table of Go's `fmt` for the verb `%x`: `0123456789abcdef`. -/
def ldigits : Bytes := bytesOf "0123456789abcdef"

/-- Go `fmt.Sprintf("%x", b)` for a byte slice `b`: two lowercase hex digits per
byte, `digits[c>>4]` then `digits[c&0xF]`. -/
def sprintfHex (b : Bytes) : Bytes :=
  b.flatMap (fun c => [ldigits.getD (c.toNat / 16) 0, ldigits.getD (c.toNat % 16) 0])

/-! ## The file system -/

/-- The file system: the files that exist, each with its path and content. -/
abbrev FS := List (Bytes × Bytes)

/-- The content of the file at `path`, when it exists. -/
def readFile (fs : FS) (path : Bytes) : Option Bytes := fs.lookup path

/-- Modelled from the spec: the helper `fileExists` is not in api.go.  The spec
speaks of a record that "exists" for a key: the file at `path` is present. -/
def fileExists (fs : FS) (path : Bytes) : Bool := (readFile fs path).isSome

/-- Modelled from the spec: the helper `createFile` is not in api.go.  The spec
has the record "created" on the ledger: a missing file comes into existence,
empty; a file already there is kept. -/
def createFile (fs : FS) (path : Bytes) : FS :=
  if fileExists fs path then fs else (path, []) :: fs

/-- Modelled from the spec: the helper `writeFileBytes` is not in api.go.  The
spec has the new record "containing the raw self-signature bytes": the content
of the file at `path` becomes `content`. -/
def writeFileBytes (fs : FS) (path content : Bytes) : FS :=
  fs.map (fun e => if e.1 = path then (path, content) else e)

/-! ## Identity, configuration and connection state -/

/-- Modelled from the spec: the type `keys` of the handler's `keyCollection` is
not declared in api.go.  The spec gives the identity three byte strings, private
key, public key and self-signature; the fields carry the names api.go uses. -/
structure keys where
  privKey : Bytes
  pubKey : Bytes
  signedKey : Bytes

/-- Package-level names that api.go uses and does not define: configuration
constants and the collaborators behind VERSION and TRANSACTIONS. -/
structure Env where
  /-- Constant `p2pConfigDir`: the directory of the attestation files. -/
  p2pConfigDir : Bytes
  /-- Constant `configPeerIDFile`: the path of the peer.id file. -/
  configPeerIDFile : Bytes
  /-- Constant `graphDir`: the directory of the stored transactions. -/
  graphDir : Bytes
  /-- Result of `semverInfo()`. -/
  semverInfo : Bytes
  /-- Library function `filepath.Glob` on the given file system. -/
  glob : FS → Bytes → List Bytes
  /-- Helper `printTx(file, comma)`, reading the given file system. -/
  printTx : FS → Bytes → Bool → Bytes

/-- What a session can observe and change: the frames it has handed to
`conn.WriteMessage` (oldest first, each with its frame type) and the files. -/
structure State where
  sent : List (Int × Bytes)
  fs : FS
deriving DecidableEq

/-- The call `conn.WriteMessage(msgType, data)`. -/
def WriteMessage (st : State) (msgType : Int) (data : Bytes) : State :=
  { st with sent := st.sent ++ [(msgType, data)] }

/-- The path of the attestation file of a key:
`p2pConfigDir + "/" + string(trimmedPubKey) + ".pubkey"`. -/
def pubkeyPath (env : Env) (trimmedPubKey : Bytes) : Bytes :=
  env.p2pConfigDir ++ bytesOf "/" ++ trimmedPubKey ++ bytesOf ".pubkey"

/-! ## Collaborators defined in api.go -/

/-- The function `getPeerID` (api.go, lines 154-166): open the peer.id file with
`O_APPEND|O_CREATE|O_WRONLY`, which creates it empty when it is missing, then
read it whole.  Returns the content and the file system after the call. -/
def getPeerID (env : Env) (fs : FS) : Bytes × FS :=
  let fs1 := if (readFile fs env.configPeerIDFile).isSome then fs
             else (env.configPeerIDFile, []) :: fs
  let fileToRead := (readFile fs1 env.configPeerIDFile).getD []
  (fileToRead, fs1)

/-- The `for i, match := range matches` loop of `getTransactions`. -/
def getTransactionsLoop (env : Env) (fs : FS) (transactionCount : Int) :
    Int → List Bytes → Bytes → Bytes
  | _, [], transactions => transactions
  | i, m :: rest, transactions =>
      getTransactionsLoop env fs transactionCount (i + 1) rest
        (transactions ++ env.printTx fs m (i != transactionCount - 1))

/-- The function `getTransactions` (api.go, lines 187-200). -/
def getTransactions (env : Env) (fs : FS) : Bytes :=
  let matched := env.glob fs (env.graphDir ++ bytesOf "/*.json")
  let transactionCount : Int := matched.length
  let transactions := getTransactionsLoop env fs transactionCount 0 matched (bytesOf "[\n\t")
  transactions ++ bytesOf "\n]"

/-! ## The handler -/

/-- The payload the JOIN branch validates (api.go, lines 79-80). -/
def trimmedPubKey (msg : Bytes) : Bytes :=
  let trimNewline := TrimRight msg (bytesOf "\n")
  TrimLeft trimNewline (bytesOf "JOIN ")

/-- The first `if` of the loop body (api.go, lines 78-106).  `none` is the
`conn.Close(); return` of lines 86-87 and 103-104. -/
def joinBlock (env : Env) (keyCollection : keys) (st : State) (msgType : Int)
    (msg : Bytes) : Option State :=
  if HasPrefix msg joinMsg then
    if (trimmedPubKey msg).length = 64 then
      if MatchString (trimmedPubKey msg) = false then
        none
      else
        let hexSig := sprintfHex keyCollection.signedKey
        let st1 := WriteMessage st msgType hexSig
        if !fileExists st1.fs (pubkeyPath env (trimmedPubKey msg)) then
          some { st1 with
            fs := writeFileBytes (createFile st1.fs (pubkeyPath env (trimmedPubKey msg)))
                    (pubkeyPath env (trimmedPubKey msg)) keyCollection.signedKey }
        else
          some st1
    else
      none
  else
    some st

/-- The `if bytes.HasPrefix(msg, versionMsg)` of lines 107-109. -/
def versionBlock (env : Env) (st : State) (msgType : Int) (msg : Bytes) : State :=
  if HasPrefix msg versionMsg then WriteMessage st msgType env.semverInfo else st

/-- The `if bytes.HasPrefix(msg, peerMsg)` of lines 110-112. -/
def peerBlock (env : Env) (st : State) (msgType : Int) (msg : Bytes) : State :=
  if HasPrefix msg peerMsg then
    WriteMessage { st with fs := (getPeerID env st.fs).2 } msgType (getPeerID env st.fs).1
  else st

/-- The `if bytes.HasPrefix(msg, txMsg)` of lines 113-115. -/
def txBlock (env : Env) (st : State) (msgType : Int) (msg : Bytes) : State :=
  if HasPrefix msg txMsg then WriteMessage st msgType (getTransactions env st.fs) else st

/-- One iteration of the loop after a successful read (api.go, lines 77-115).
The flag is `true` when the loop goes on to the next read and `false` when the
handler has closed the connection and returned. -/
def handleMessage (env : Env) (keyCollection : keys) (st : State) (msgType : Int)
    (msg : Bytes) : State × Bool :=
  match joinBlock env keyCollection st msgType msg with
  | none => (st, false)
  | some st1 =>
    (txBlock env (peerBlock env (versionBlock env st1 msgType msg) msgType msg) msgType msg,
      true)

/-- What `conn.ReadMessage()` returns: a frame with its type, or an error. -/
inductive ReadResult where
  | message (msgType : Int) (msg : Bytes)
  | error
deriving DecidableEq

/-- The function `channelSocketHandler` (api.go, lines 63-117), run on the
results the successive calls of `conn.ReadMessage` give.  The flag of the
result is `true` when the session is still open (the handler is waiting for the
next frame) and `false` when the handler has returned and the channel is
closed. -/
def channelSocketHandler (env : Env) (keyCollection : keys) :
    State → List ReadResult → State × Bool
  | st, [] => (st, true)
  | st, ReadResult.error :: _ => (st, false)
  | st, ReadResult.message msgType msg :: rest =>
    match handleMessage env keyCollection st msgType msg with
    | (st1, true) => channelSocketHandler env keyCollection st1 rest
    | (st1, false) => (st1, false)

/-! ## Definitions used to state the properties -/

/-- The key format of the spec, the anchored pattern `^[a-f0-9]{64}$`: the text
is exactly 64 bytes long and every byte is in the class. -/
def validKey (k : Bytes) : Bool := decide (k.length = 64) && k.all inClass

/-- The JOIN branch reaches its response (api.go, line 94): the frame has the
JOIN tag and its trimmed payload passes both tests of lines 81 and 84. -/
def joinAccepted (msg : Bytes) : Bool :=
  HasPrefix msg joinMsg &&
    (decide ((trimmedPubKey msg).length = 64) && MatchString (trimmedPubKey msg))

/-- The state a session is in after the JOIN branch has answered: the response
is written, and the attestation file is created when it was missing. -/
def joinedState (env : Env) (keyCollection : keys) (st : State) (msgType : Int)
    (key : Bytes) : State :=
  { sent := st.sent ++ [(msgType, sprintfHex keyCollection.signedKey)]
    fs := if fileExists st.fs (pubkeyPath env key) then st.fs
          else (pubkeyPath env key, keyCollection.signedKey) :: st.fs }

/-- The attestation record of a key on the ledger: the content of its file. -/
def attestation (env : Env) (fs : FS) (key : Bytes) : Option Bytes :=
  readFile fs (pubkeyPath env key)

/-- A read result on which the handler returns: a read error (line 71), or a
frame with the JOIN tag that fails one of the two tests (lines 81 and 84). -/
def closes : ReadResult → Bool
  | ReadResult.error => true
  | ReadResult.message _ msg => HasPrefix msg joinMsg && !joinAccepted msg

/-- The read result that delivers a frame. -/
def toRead (f : Int × Bytes) : ReadResult := ReadResult.message f.1 f.2

/-- The frames read before the first read result on which the handler returns,
in arrival order. -/
def framesBeforeClose : List ReadResult → List (Int × Bytes)
  | [] => []
  | ReadResult.error :: _ => []
  | ReadResult.message msgType msg :: rest =>
    if closes (ReadResult.message msgType msg) then []
    else (msgType, msg) :: framesBeforeClose rest

/-- The frames of a list handled one after the other, in order, each by one
iteration of the loop body on the state the previous one left. -/
def handleAll (env : Env) (keyCollection : keys) (st : State)
    (frames : List (Int × Bytes)) : State :=
  frames.foldl (fun s f => (handleMessage env keyCollection s f.1 f.2).1) st

/-- The frames one iteration of the loop body writes for the frame `f` in the
state `st`: what it appends to the frames written so far. -/
def frameResponse (env : Env) (keyCollection : keys) (st : State) (f : Int × Bytes) :
    List (Int × Bytes) :=
  (handleMessage env keyCollection st f.1 f.2).1.sent.drop st.sent.length

/-- The per-frame responses of a list of frames, concatenated in arrival order,
each frame handled in the state the frames before it left. -/
def responses (env : Env) (keyCollection : keys) : State → List (Int × Bytes) →
    List (Int × Bytes)
  | _, [] => []
  | st, f :: rest =>
    frameResponse env keyCollection st f ++
      responses env keyCollection (handleMessage env keyCollection st f.1 f.2).1 rest

/-- The message kinds of the parse step the spec describes. -/
inductive Variant where
  | Join
  | Version
  | Peer
  | Transactions
  | Cast
  | Unknown
deriving DecidableEq

/-- Parse-once classification, after the spec: a frame is classified by its
fixed tag, the tags tested in the order JOIN, VERSION, PEER, TRANSACTIONS; CAST
is a recognised tag. -/
def parseMessage (msg : Bytes) : Variant :=
  if HasPrefix msg joinMsg then Variant.Join
  else if HasPrefix msg versionMsg then Variant.Version
  else if HasPrefix msg peerMsg then Variant.Peer
  else if HasPrefix msg txMsg then Variant.Transactions
  else if HasPrefix msg castMsg then Variant.Cast
  else Variant.Unknown

/-- Parse-once dispatch, after the spec: exactly one action for the kind of the
frame.  JOIN answers and persists when the trimmed payload is a valid key and
closes otherwise; VERSION, PEER and TRANSACTIONS answer; CAST and unmatched
frames do nothing. -/
def dispatch (env : Env) (keyCollection : keys) (st : State) (msgType : Int)
    (msg : Bytes) : State × Bool :=
  match parseMessage msg with
  | Variant.Join =>
    if validKey (trimmedPubKey msg) then
      (joinedState env keyCollection st msgType (trimmedPubKey msg), true)
    else (st, false)
  | Variant.Version => (WriteMessage st msgType env.semverInfo, true)
  | Variant.Peer =>
    (WriteMessage { st with fs := (getPeerID env st.fs).2 } msgType (getPeerID env st.fs).1, true)
  | Variant.Transactions => (WriteMessage st msgType (getTransactions env st.fs), true)
  | Variant.Cast => (st, true)
  | Variant.Unknown => (st, true)

/-! ## Sample values -/

/-- A valid key: 64 times the byte `a`. -/
def sampleKey : Bytes := List.replicate 64 97

/-- A 64-byte payload that is not a key: the byte `A` followed by 63 times `a`. -/
def sampleBadKey : Bytes := 65 :: List.replicate 63 97

/-- A configuration with two stored transactions. -/
def sampleEnv : Env where
  p2pConfigDir := bytesOf "./config/p2p"
  configPeerIDFile := bytesOf "./config/peer.id"
  graphDir := bytesOf "./graph"
  semverInfo := bytesOf "0.1.0"
  glob := fun _ _ => [bytesOf "./graph/1.json", bytesOf "./graph/2.json"]
  printTx := fun _ file comma => file ++ (if comma then bytesOf ",\n\t" else [])

/-- An identity with a two-byte signature. -/
def sampleKeys : keys where
  privKey := [1, 2]
  pubKey := [3, 4]
  signedKey := [171, 1]

/-- A session that has sent nothing, on an empty file system. -/
def sampleState : State := { sent := [], fs := [] }

/-! ## Basic facts: constants, prefixes, the class -/

theorem joinMsg_eq : joinMsg = [74, 79, 73, 78] := by decide

theorem castMsg_eq : castMsg = [67, 65, 83, 84] := by decide

theorem versionMsg_eq : versionMsg = [86, 69, 82, 83, 73, 79, 78] := by decide

theorem peerMsg_eq : peerMsg = [80, 69, 69, 82] := by decide

theorem txMsg_eq : txMsg = [84, 82, 65, 78, 83, 65, 67, 84, 73, 79, 78, 83] := by decide

theorem newline_eq : bytesOf "\n" = [10] := by decide

theorem joinCutset_eq : bytesOf "JOIN " = [74, 79, 73, 78, 32] := by decide

theorem HasPrefix_iff (s pre : Bytes) : HasPrefix s pre = true ↔ ∃ r, s = pre ++ r := by
  unfold HasPrefix
  simp only [Bool.and_eq_true, decide_eq_true_eq, beq_iff_eq]
  constructor
  · rintro ⟨_, ht⟩
    refine ⟨s.drop pre.length, ?_⟩
    conv_lhs => rw [← List.take_append_drop pre.length s, ht]
  · rintro ⟨r, rfl⟩
    simp

theorem HasPrefix_append (pre r : Bytes) : HasPrefix (pre ++ r) pre = true :=
  (HasPrefix_iff _ _).2 ⟨r, rfl⟩

theorem HasPrefix_false_of_head (a b : UInt8) (s pre : Bytes) (h : a ≠ b) :
    HasPrefix (a :: s) (b :: pre) = false := by
  cases hp : HasPrefix (a :: s) (b :: pre) with
  | false => rfl
  | true =>
    obtain ⟨r, hr⟩ := (HasPrefix_iff _ _).1 hp
    simp only [List.cons_append, List.cons.injEq] at hr
    exact absurd hr.1 h

theorem inClass_ne_newline {b : UInt8} (h : inClass b = true) : b ≠ 10 := by
  rintro rfl
  revert h
  decide

theorem inClass_not_newline {b : UInt8} (h : inClass b = true) :
    (bytesOf "\n").contains b = false := by
  rw [newline_eq]
  simpa using inClass_ne_newline h

theorem inClass_not_joinCutset {b : UInt8} (h : inClass b = true) :
    (bytesOf "JOIN ").contains b = false := by
  rw [joinCutset_eq]
  cases hc : List.contains [74, 79, 73, 78, 32] b with
  | false => rfl
  | true =>
    simp at hc
    rcases hc with rfl | rfl | rfl | rfl | rfl <;> revert h <;> decide

/-! ## The unanchored pattern on a 64-byte text -/

theorem MatchString_of_length_64 (s : Bytes) (hs : s.length = 64) :
    MatchString s = s.all inClass := by
  have htake : s.take 64 = s := List.take_of_length_le (by omega)
  rw [Bool.eq_iff_iff]
  unfold MatchString
  rw [List.any_eq_true]
  constructor
  · rintro ⟨t, ht, hm⟩
    rw [List.mem_tails] at ht
    unfold matchHere at hm
    simp only [Bool.and_eq_true, decide_eq_true_eq, List.length_take] at hm
    have hts : t = s := ht.eq_of_length_le (by omega)
    rw [hts, htake] at hm
    exact hm.2
  · intro h
    refine ⟨s, (List.mem_tails _ _).2 (List.suffix_refl s), ?_⟩
    unfold matchHere
    simp only [Bool.and_eq_true, decide_eq_true_eq, htake]
    exact ⟨hs, h⟩

theorem MatchString_eq_validKey (s : Bytes) (hs : s.length = 64) :
    MatchString s = validKey s := by
  rw [MatchString_of_length_64 s hs]
  simp [validKey, hs]

/-! ## The two trims -/

theorem TrimRight_append_newlines (x : Bytes) (m : Nat)
    (hx : ∀ h : x ≠ [], x.getLast h ≠ 10) :
    TrimRight (x ++ List.replicate m 10) (bytesOf "\n") = x := by
  unfold TrimRight
  rw [newline_eq]
  induction m with
  | zero =>
    simp only [List.replicate_zero, List.append_nil]
    rw [List.rdropWhile_eq_self_iff]
    intro h
    simpa using hx h
  | succ m ih =>
    rw [List.replicate_succ', ← List.append_assoc, List.rdropWhile_concat_pos _ _ _ (by simp)]
    exact ih

theorem TrimRight_decomp (msg : Bytes) :
    ∃ m, msg = TrimRight msg (bytesOf "\n") ++ List.replicate m 10 ∧
      ∀ h : TrimRight msg (bytesOf "\n") ≠ [], (TrimRight msg (bytesOf "\n")).getLast h ≠ 10 := by
  unfold TrimRight
  rw [newline_eq]
  induction msg using List.reverseRecOn with
  | nil => exact ⟨0, by simp [List.rdropWhile], by simp [List.rdropWhile]⟩
  | append_singleton l a ih =>
    by_cases ha : a = 10
    · obtain ⟨m, hm, hlast⟩ := ih
      rw [List.rdropWhile_concat_pos _ _ _ (by simp [ha])]
      refine ⟨m + 1, ?_, hlast⟩
      rw [List.replicate_succ', ← List.append_assoc, ← hm, ha]
    · rw [List.rdropWhile_concat_neg _ _ _ (by simp [ha])]
      refine ⟨0, by simp, ?_⟩
      intro h
      simpa using ha

theorem TrimLeft_append (s k cutset : Bytes) (hs : ∀ b ∈ s, cutset.contains b = true)
    (hk : ∀ b ∈ k.head?, cutset.contains b = false) :
    TrimLeft (s ++ k) cutset = k := by
  unfold TrimLeft
  induction s with
  | nil =>
    cases k with
    | nil => rfl
    | cons a k =>
      have := hk a (by simp)
      rw [List.nil_append, List.dropWhile_cons_of_neg]
      simp only [this]
      exact Bool.false_ne_true
  | cons a s ih =>
    have ha := hs a (by simp)
    simp only [List.cons_append, List.dropWhile_cons, ha, if_true]
    exact ih (fun b hb => hs b (by simp [hb]))

theorem TrimLeft_decomp (t cutset : Bytes) :
    ∃ s, t = s ++ TrimLeft t cutset ∧ (∀ b ∈ s, cutset.contains b = true) ∧
      ∀ b ∈ (TrimLeft t cutset).head?, cutset.contains b = false := by
  refine ⟨t.takeWhile (fun b => cutset.contains b), ?_, ?_, ?_⟩
  · unfold TrimLeft
    exact (List.takeWhile_append_dropWhile _ t).symm
  · intro b hb
    exact List.mem_takeWhile_imp hb
  · intro b hb
    unfold TrimLeft at hb
    have := List.head?_dropWhile_not (fun b => cutset.contains b) t
    rw [Option.mem_def] at hb
    rw [hb] at this
    simpa using this

theorem validKey_iff (k : Bytes) :
    validKey k = true ↔ k.length = 64 ∧ ∀ b ∈ k, inClass b = true := by
  simp [validKey]

theorem validKey_head (k : Bytes) (hk : validKey k = true) :
    ∃ a r, k = a :: r ∧ inClass a = true := by
  obtain ⟨hl, hc⟩ := (validKey_iff k).1 hk
  cases k with
  | nil => simp at hl
  | cons a r => exact ⟨a, r, rfl, hc a (by simp)⟩

theorem validKey_getLast (k : Bytes) (hk : validKey k = true) (s : Bytes)
    (h : s ++ k ≠ []) : (s ++ k).getLast h ≠ 10 := by
  obtain ⟨hl, hc⟩ := (validKey_iff k).1 hk
  have hne : k ≠ [] := by
    intro h0
    simp [h0] at hl
  rw [List.getLast_append_of_ne_nil hne]
  exact inClass_ne_newline (hc _ (List.getLast_mem hne))

/-- The trimmed payload of a frame made of JOIN-cutset bytes, a valid key and
newlines is the key. -/
theorem trimmedPubKey_form (s k : Bytes) (m : Nat) (hk : validKey k = true)
    (hs : ∀ b ∈ s, (bytesOf "JOIN ").contains b = true) :
    trimmedPubKey (s ++ k ++ List.replicate m 10) = k := by
  unfold trimmedPubKey
  simp only
  rw [TrimRight_append_newlines (s ++ k) m (fun h => validKey_getLast k hk s h)]
  apply TrimLeft_append s k _ hs
  obtain ⟨a, r, rfl, ha⟩ := validKey_head k hk
  intro b hb
  simp only [List.head?_cons, Option.mem_def, Option.some.injEq] at hb
  subst hb
  exact inClass_not_joinCutset ha

/-! ## The file system -/

theorem readFile_cons (fs : FS) (p c q : Bytes) :
    readFile ((p, c) :: fs) q = if q = p then some c else readFile fs q := by
  unfold readFile
  rw [List.lookup_cons]
  by_cases h : q = p
  · simp [h]
  · have hb : (q == p) = false := by simpa using h
    simp [h, hb]

theorem not_mem_of_not_fileExists (fs : FS) (p : Bytes) (h : fileExists fs p = false) :
    ∀ e ∈ fs, e.1 ≠ p := by
  unfold fileExists readFile at h
  have hn : List.lookup p fs = none := by
    cases hl : List.lookup p fs with
    | none => rfl
    | some x => simp [hl] at h
  rw [List.lookup_eq_none_iff] at hn
  have h := hn
  intro e he heq
  have := h e he
  simp [heq] at this

theorem writeFileBytes_createFile (fs : FS) (p c : Bytes) (h : fileExists fs p = false) :
    writeFileBytes (createFile fs p) p c = (p, c) :: fs := by
  unfold createFile writeFileBytes
  simp only [h, Bool.false_eq_true, if_false, List.map_cons, if_true]
  congr 1
  have hne := not_mem_of_not_fileExists fs p h
  calc fs.map (fun e => if e.1 = p then (p, c) else e) = fs.map id := by
        apply List.map_congr_left
        intro e he
        simp [hne e he]
    _ = fs := List.map_id fs

/-! ## The loop body, case by case -/

theorem joinAccepted_iff (msg : Bytes) :
    joinAccepted msg = true ↔
      HasPrefix msg joinMsg = true ∧ (trimmedPubKey msg).length = 64 ∧
        MatchString (trimmedPubKey msg) = true := by
  simp [joinAccepted]

theorem joinAccepted_iff_validKey (msg : Bytes) :
    joinAccepted msg = true ↔
      HasPrefix msg joinMsg = true ∧ validKey (trimmedPubKey msg) = true := by
  rw [joinAccepted_iff]
  constructor
  · rintro ⟨h1, h2, h3⟩
    exact ⟨h1, by rw [← MatchString_eq_validKey _ h2]; exact h3⟩
  · rintro ⟨h1, h2⟩
    have hl := ((validKey_iff _).1 h2).1
    exact ⟨h1, hl, by rw [MatchString_eq_validKey _ hl]; exact h2⟩

theorem not_other_tags_of_join (msg : Bytes) (h : HasPrefix msg joinMsg = true) :
    HasPrefix msg versionMsg = false ∧ HasPrefix msg peerMsg = false ∧
      HasPrefix msg txMsg = false ∧ HasPrefix msg castMsg = false := by
  obtain ⟨r, rfl⟩ := (HasPrefix_iff _ _).1 h
  rw [joinMsg_eq, versionMsg_eq, peerMsg_eq, txMsg_eq, castMsg_eq]
  refine ⟨?_, ?_, ?_, ?_⟩ <;> exact HasPrefix_false_of_head _ _ _ _ (by decide)

theorem joinBlock_of_accepted (env : Env) (keyCollection : keys) (st : State) (msgType : Int)
    (msg : Bytes) (h : joinAccepted msg = true) :
    joinBlock env keyCollection st msgType msg =
      some (joinedState env keyCollection st msgType (trimmedPubKey msg)) := by
  obtain ⟨h1, h2, h3⟩ := (joinAccepted_iff msg).1 h
  unfold joinBlock joinedState
  simp only [h1, h2, h3, if_true, Bool.true_eq_false, if_false, WriteMessage]
  cases hex : fileExists st.fs (pubkeyPath env (trimmedPubKey msg)) with
  | true => simp
  | false => simp [writeFileBytes_createFile _ _ _ hex]

theorem joinBlock_of_rejected (env : Env) (keyCollection : keys) (st : State) (msgType : Int)
    (msg : Bytes) (h1 : HasPrefix msg joinMsg = true) (h : joinAccepted msg = false) :
    joinBlock env keyCollection st msgType msg = none := by
  unfold joinBlock
  simp only [h1, if_true]
  by_cases hl : (trimmedPubKey msg).length = 64
  · have hm : MatchString (trimmedPubKey msg) = false := by
      cases hm : MatchString (trimmedPubKey msg) with
      | false => rfl
      | true =>
        have := (joinAccepted_iff msg).2 ⟨h1, hl, hm⟩
        rw [h] at this
        exact absurd this (by decide)
    simp [hl, hm]
  · simp [hl]

theorem joinBlock_of_not_join (env : Env) (keyCollection : keys) (st : State) (msgType : Int)
    (msg : Bytes) (h1 : HasPrefix msg joinMsg = false) :
    joinBlock env keyCollection st msgType msg = some st := by
  unfold joinBlock
  simp [h1]

theorem handleMessage_of_accepted (env : Env) (keyCollection : keys) (st : State)
    (msgType : Int) (msg : Bytes) (h : joinAccepted msg = true) :
    handleMessage env keyCollection st msgType msg =
      (joinedState env keyCollection st msgType (trimmedPubKey msg), true) := by
  obtain ⟨hv, hp, ht, _⟩ := not_other_tags_of_join msg ((joinAccepted_iff msg).1 h).1
  unfold handleMessage
  rw [joinBlock_of_accepted env keyCollection st msgType msg h]
  simp [versionBlock, peerBlock, txBlock, hv, hp, ht]

theorem handleMessage_of_rejected (env : Env) (keyCollection : keys) (st : State)
    (msgType : Int) (msg : Bytes) (h1 : HasPrefix msg joinMsg = true)
    (h : joinAccepted msg = false) :
    handleMessage env keyCollection st msgType msg = (st, false) := by
  unfold handleMessage
  rw [joinBlock_of_rejected env keyCollection st msgType msg h1 h]

theorem handleMessage_of_not_join (env : Env) (keyCollection : keys) (st : State)
    (msgType : Int) (msg : Bytes) (h1 : HasPrefix msg joinMsg = false) :
    handleMessage env keyCollection st msgType msg =
      (txBlock env (peerBlock env (versionBlock env st msgType msg) msgType msg) msgType msg,
        true) := by
  unfold handleMessage
  rw [joinBlock_of_not_join env keyCollection st msgType msg h1]

theorem closes_message (msgType : Int) (msg : Bytes) :
    closes (ReadResult.message msgType msg) = (HasPrefix msg joinMsg && !joinAccepted msg) :=
  rfl

theorem closes_of_accepted (msgType : Int) (msg : Bytes) (h : joinAccepted msg = true) :
    closes (ReadResult.message msgType msg) = false := by
  rw [closes_message, h]
  simp

theorem closes_of_not_join (msgType : Int) (msg : Bytes) (h : HasPrefix msg joinMsg = false) :
    closes (ReadResult.message msgType msg) = false := by
  rw [closes_message, h]
  simp

theorem closes_of_rejected (msgType : Int) (msg : Bytes) (h1 : HasPrefix msg joinMsg = true)
    (h : joinAccepted msg = false) : closes (ReadResult.message msgType msg) = true := by
  rw [closes_message, h1, h]
  simp

theorem handleMessage_flag (env : Env) (keyCollection : keys) (st : State) (msgType : Int)
    (msg : Bytes) :
    (handleMessage env keyCollection st msgType msg).2 = !closes (ReadResult.message msgType msg) := by
  cases h1 : HasPrefix msg joinMsg with
  | false => rw [handleMessage_of_not_join _ _ _ _ _ h1]; simp [closes, h1]
  | true =>
    cases h : joinAccepted msg with
    | false => rw [handleMessage_of_rejected _ _ _ _ _ h1 h]; simp [closes, h1, h]
    | true => rw [handleMessage_of_accepted _ _ _ _ _ h]; simp [closes, h1, h]

theorem handleMessage_of_closes (env : Env) (keyCollection : keys) (st : State)
    (msgType : Int) (msg : Bytes) (h : closes (ReadResult.message msgType msg) = true) :
    handleMessage env keyCollection st msgType msg = (st, false) := by
  unfold closes at h
  simp only [Bool.and_eq_true, Bool.not_eq_true'] at h
  exact handleMessage_of_rejected _ _ _ _ _ h.1 h.2

theorem channelSocketHandler_cons (env : Env) (keyCollection : keys) (st : State)
    (msgType : Int) (msg : Bytes) (rest : List ReadResult) :
    channelSocketHandler env keyCollection st (ReadResult.message msgType msg :: rest) =
      if closes (ReadResult.message msgType msg) then (st, false)
      else channelSocketHandler env keyCollection
        (handleMessage env keyCollection st msgType msg).1 rest := by
  have hflag := handleMessage_flag env keyCollection st msgType msg
  cases hc : closes (ReadResult.message msgType msg) with
  | true =>
    rw [channelSocketHandler, handleMessage_of_closes _ _ _ _ _ hc]
    simp
  | false =>
    rw [hc] at hflag
    rw [channelSocketHandler]
    generalize handleMessage env keyCollection st msgType msg = r at hflag
    obtain ⟨s1, b⟩ := r
    simp only [Bool.not_false] at hflag
    subst hflag
    simp

/-! ## Hex encoding -/

theorem ldigits_inClass : ∀ n, n < 16 → inClass (ldigits.getD n 0) = true := by decide

theorem sprintfHex_inClass (b : Bytes) : ∀ x ∈ sprintfHex b, inClass x = true := by
  intro x hx
  unfold sprintfHex at hx
  rw [List.mem_flatMap] at hx
  obtain ⟨c, _, hc⟩ := hx
  have hlt : c.toNat < 256 := c.val.isLt
  simp only [List.mem_cons, List.mem_singleton, List.not_mem_nil, or_false] at hc
  rcases hc with rfl | rfl
  · exact ldigits_inClass _ (by omega)
  · exact ldigits_inClass _ (by omega)

theorem sprintfHex_length (b : Bytes) : (sprintfHex b).length = 2 * b.length := by
  unfold sprintfHex
  induction b with
  | nil => rfl
  | cons c b ih =>
    rw [List.flatMap_cons, List.length_append, ih]
    simp only [List.length_cons, List.length_nil]
    omega

/-! ## Frames the JOIN branch accepts -/

theorem HasPrefix_append_right (s pre r : Bytes) (h : HasPrefix s pre = true) :
    HasPrefix (s ++ r) pre = true := by
  obtain ⟨t, rfl⟩ := (HasPrefix_iff _ _).1 h
  exact (HasPrefix_iff _ _).2 ⟨t ++ r, by simp⟩

theorem joinAccepted_form (s k : Bytes) (m : Nat) (hk : validKey k = true)
    (hs : ∀ b ∈ s, (bytesOf "JOIN ").contains b = true) (hj : HasPrefix s joinMsg = true) :
    joinAccepted (s ++ k ++ List.replicate m 10) = true := by
  rw [joinAccepted_iff_validKey, trimmedPubKey_form s k m hk hs]
  refine ⟨?_, hk⟩
  rw [List.append_assoc]
  exact HasPrefix_append_right _ _ _ hj

theorem joinToken_cutset : ∀ b ∈ bytesOf "JOIN ", (bytesOf "JOIN ").contains b = true := by
  decide

theorem joinToken_tag : HasPrefix (bytesOf "JOIN ") joinMsg = true := by decide

theorem joinedState_sent (env : Env) (keyCollection : keys) (st : State) (msgType : Int)
    (key : Bytes) :
    (joinedState env keyCollection st msgType key).sent =
      st.sent ++ [(msgType, sprintfHex keyCollection.signedKey)] := rfl

theorem joinedState_fs_of_exists (env : Env) (keyCollection : keys) (st : State)
    (msgType : Int) (key : Bytes) (h : fileExists st.fs (pubkeyPath env key) = true) :
    (joinedState env keyCollection st msgType key).fs = st.fs := by
  simp [joinedState, h]

theorem joinedState_fs_of_absent (env : Env) (keyCollection : keys) (st : State)
    (msgType : Int) (key : Bytes) (h : fileExists st.fs (pubkeyPath env key) = false) :
    (joinedState env keyCollection st msgType key).fs =
      (pubkeyPath env key, keyCollection.signedKey) :: st.fs := by
  simp [joinedState, h]

theorem joinedState_fileExists (env : Env) (keyCollection : keys) (st : State)
    (msgType : Int) (key : Bytes) :
    fileExists (joinedState env keyCollection st msgType key).fs (pubkeyPath env key) = true := by
  cases h : fileExists st.fs (pubkeyPath env key) with
  | true => rw [joinedState_fs_of_exists _ _ _ _ _ h]; exact h
  | false =>
    rw [joinedState_fs_of_absent _ _ _ _ _ h]
    simp [fileExists, readFile_cons]

/-! ## The JOIN handshake -/

/-- C1: for every 64-byte key over `a-f0-9`, every identity and every session
state (the record of the key present or not), the frame `"JOIN " ++ k`, with or
without a trailing newline, is answered: the two trims extract exactly `k`,
exactly one frame is written, it carries the `%x` encoding of `signedKey` (all
lowercase hex digits) under the frame type of the inbound frame, and the session
stays open. -/
theorem join_valid_key_answers (env : Env) (keyCollection : keys) (st : State)
    (msgType : Int) (k msg : Bytes) (hk : validKey k = true)
    (hmsg : msg = bytesOf "JOIN " ++ k ∨ msg = bytesOf "JOIN " ++ k ++ bytesOf "\n") :
    trimmedPubKey msg = k ∧
      (handleMessage env keyCollection st msgType msg).1.sent =
        st.sent ++ [(msgType, sprintfHex keyCollection.signedKey)] ∧
      (handleMessage env keyCollection st msgType msg).2 = true ∧
      (channelSocketHandler env keyCollection st [ReadResult.message msgType msg]).2 = true ∧
      (∀ x ∈ sprintfHex keyCollection.signedKey, inClass x = true) := by
  have hform : ∃ m, msg = bytesOf "JOIN " ++ k ++ List.replicate m 10 := by
    rcases hmsg with h | h
    · exact ⟨0, by simp [h]⟩
    · exact ⟨1, by rw [h, newline_eq]; rfl⟩
  obtain ⟨m, rfl⟩ := hform
  have hacc := joinAccepted_form _ k m hk joinToken_cutset joinToken_tag
  have hkey := trimmedPubKey_form _ k m hk joinToken_cutset
  have hstep := handleMessage_of_accepted env keyCollection st msgType _ hacc
  have hcl := closes_of_accepted msgType _ hacc
  refine ⟨hkey, ?_, ?_, ?_, sprintfHex_inClass _⟩
  · rw [hstep]; rfl
  · rw [hstep]
  · rw [channelSocketHandler_cons, hcl]
    simp [channelSocketHandler]

theorem join_valid_key_answers_witness :
    validKey sampleKey = true ∧
      trimmedPubKey (bytesOf "JOIN " ++ sampleKey ++ bytesOf "\n") = sampleKey ∧
      (handleMessage sampleEnv sampleKeys sampleState 1
        (bytesOf "JOIN " ++ sampleKey ++ bytesOf "\n")).1.sent =
        sampleState.sent ++ [(1, sprintfHex sampleKeys.signedKey)] ∧
      (handleMessage sampleEnv sampleKeys sampleState 1
        (bytesOf "JOIN " ++ sampleKey ++ bytesOf "\n")).2 = true :=
  ⟨by decide,
    (join_valid_key_answers sampleEnv sampleKeys sampleState 1 sampleKey _ (by decide)
      (Or.inr rfl)).1,
    (join_valid_key_answers sampleEnv sampleKeys sampleState 1 sampleKey _ (by decide)
      (Or.inr rfl)).2.1,
    (join_valid_key_answers sampleEnv sampleKeys sampleState 1 sampleKey _ (by decide)
      (Or.inr rfl)).2.2.1⟩

/-- C2: a frame with the JOIN tag whose payload after the two trims is not 64
bytes long gets no response and changes no file, and the handler returns: the
state is the one before the frame and the channel is closed, whatever frames
follow. -/
theorem join_wrong_length_closes (env : Env) (keyCollection : keys) (st : State)
    (msgType : Int) (msg : Bytes) (rest : List ReadResult)
    (hj : HasPrefix msg joinMsg = true) (hl : (trimmedPubKey msg).length ≠ 64) :
    handleMessage env keyCollection st msgType msg = (st, false) ∧
      channelSocketHandler env keyCollection st (ReadResult.message msgType msg :: rest) =
        (st, false) := by
  have hrej : joinAccepted msg = false := by
    cases h : joinAccepted msg with
    | false => rfl
    | true => exact absurd ((joinAccepted_iff msg).1 h).2.1 hl
  have hcl := closes_of_rejected msgType msg hj hrej
  refine ⟨handleMessage_of_rejected _ _ _ _ _ hj hrej, ?_⟩
  rw [channelSocketHandler_cons, hcl]
  simp

theorem join_wrong_length_closes_witness :
    HasPrefix (bytesOf "JOIN short") joinMsg = true ∧
      (trimmedPubKey (bytesOf "JOIN short")).length ≠ 64 ∧
      handleMessage sampleEnv sampleKeys sampleState 1 (bytesOf "JOIN short") =
        (sampleState, false) ∧
      channelSocketHandler sampleEnv sampleKeys sampleState
        (ReadResult.message 1 (bytesOf "JOIN short") ::
          [ReadResult.message 1 (bytesOf "VERSION")]) = (sampleState, false) :=
  ⟨by decide, by decide,
    join_wrong_length_closes sampleEnv sampleKeys sampleState 1 (bytesOf "JOIN short")
      [ReadResult.message 1 (bytesOf "VERSION")] (by decide) (by decide)⟩

/-- C3: on a 64-byte text the unanchored pattern `[a-f0-9]{64}` of the code
accepts exactly what the anchored `^[a-f0-9]{64}$` accepts; hence a frame with
the JOIN tag whose trimmed payload is 64 bytes long and holds a byte outside
`a-f0-9` gets no response and creates no file, and the handler returns with the
channel closed. -/
theorem join_illegal_characters_closes :
    (∀ s : Bytes, s.length = 64 → MatchString s = validKey s) ∧
      ∀ (env : Env) (keyCollection : keys) (st : State) (msgType : Int) (msg : Bytes)
        (rest : List ReadResult),
        HasPrefix msg joinMsg = true → (trimmedPubKey msg).length = 64 →
        (∃ b ∈ trimmedPubKey msg, inClass b = false) →
        handleMessage env keyCollection st msgType msg = (st, false) ∧
          channelSocketHandler env keyCollection st
            (ReadResult.message msgType msg :: rest) = (st, false) := by
  refine ⟨MatchString_eq_validKey, ?_⟩
  intro env keyCollection st msgType msg rest hj _ hbad
  have hrej : joinAccepted msg = false := by
    cases h : joinAccepted msg with
    | false => rfl
    | true =>
      obtain ⟨b, hb, hbc⟩ := hbad
      have := ((validKey_iff _).1 ((joinAccepted_iff_validKey msg).1 h).2).2 b hb
      rw [hbc] at this
      exact absurd this (by decide)
  have hcl := closes_of_rejected msgType msg hj hrej
  refine ⟨handleMessage_of_rejected _ _ _ _ _ hj hrej, ?_⟩
  rw [channelSocketHandler_cons, hcl]
  simp

theorem join_illegal_characters_closes_witness :
    HasPrefix (bytesOf "JOIN " ++ sampleBadKey) joinMsg = true ∧
      (trimmedPubKey (bytesOf "JOIN " ++ sampleBadKey)).length = 64 ∧
      (∃ b ∈ trimmedPubKey (bytesOf "JOIN " ++ sampleBadKey), inClass b = false) ∧
      handleMessage sampleEnv sampleKeys sampleState 1 (bytesOf "JOIN " ++ sampleBadKey) =
        (sampleState, false) ∧
      channelSocketHandler sampleEnv sampleKeys sampleState
        (ReadResult.message 1 (bytesOf "JOIN " ++ sampleBadKey) :: []) =
        (sampleState, false) :=
  ⟨by decide, by decide, ⟨65, by decide, by decide⟩,
    join_illegal_characters_closes.2 sampleEnv sampleKeys sampleState 1
      (bytesOf "JOIN " ++ sampleBadKey) [] (by decide) (by decide)
      ⟨65, by decide, by decide⟩⟩

theorem joinAccepted_of_key (k msg : Bytes) (hk : validKey k = true)
    (hj : HasPrefix msg joinMsg = true) (hkey : trimmedPubKey msg = k) :
    joinAccepted msg = true := by
  rw [joinAccepted_iff_validKey, hkey]
  exact ⟨hj, hk⟩

theorem handleMessage_of_key (env : Env) (keyCollection : keys) (st : State) (msgType : Int)
    (k msg : Bytes) (hk : validKey k = true) (hj : HasPrefix msg joinMsg = true)
    (hkey : trimmedPubKey msg = k) :
    handleMessage env keyCollection st msgType msg =
      (joinedState env keyCollection st msgType k, true) := by
  rw [handleMessage_of_accepted _ _ _ _ _ (joinAccepted_of_key k msg hk hj hkey), hkey]

/-- C4: JOIN is idempotent on the ledger.  Two frames that are valid JOINs for
the same key `k`, handled one after the other, are both answered with the `%x`
encoding of `signedKey`, and the file system after the second equals the file
system after the first; the same holds when both arrive on one channel.
Whenever the file of `k` already exists, whatever its content, a valid JOIN for
`k` leaves the whole file system as it was. -/
theorem join_idempotent (env : Env) (keyCollection : keys) (st : State)
    (msgType1 msgType2 : Int) (k msg1 msg2 : Bytes) (hk : validKey k = true)
    (hj1 : HasPrefix msg1 joinMsg = true) (hkey1 : trimmedPubKey msg1 = k)
    (hj2 : HasPrefix msg2 joinMsg = true) (hkey2 : trimmedPubKey msg2 = k) :
    (handleMessage env keyCollection st msgType1 msg1).1.sent =
        st.sent ++ [(msgType1, sprintfHex keyCollection.signedKey)] ∧
      (handleMessage env keyCollection
          (handleMessage env keyCollection st msgType1 msg1).1 msgType2 msg2).1.sent =
        (handleMessage env keyCollection st msgType1 msg1).1.sent ++
          [(msgType2, sprintfHex keyCollection.signedKey)] ∧
      (handleMessage env keyCollection
          (handleMessage env keyCollection st msgType1 msg1).1 msgType2 msg2).1.fs =
        (handleMessage env keyCollection st msgType1 msg1).1.fs ∧
      channelSocketHandler env keyCollection st
          [ReadResult.message msgType1 msg1, ReadResult.message msgType2 msg2] =
        (handleMessage env keyCollection
          (handleMessage env keyCollection st msgType1 msg1).1 msgType2 msg2) ∧
      (fileExists st.fs (pubkeyPath env k) = true →
        (handleMessage env keyCollection st msgType1 msg1).1.fs = st.fs) := by
  have hc1 := closes_of_accepted msgType1 msg1 (joinAccepted_of_key k msg1 hk hj1 hkey1)
  have hc2 := closes_of_accepted msgType2 msg2 (joinAccepted_of_key k msg2 hk hj2 hkey2)
  have e1 := fun s => handleMessage_of_key env keyCollection s msgType1 k msg1 hk hj1 hkey1
  have e2 := fun s => handleMessage_of_key env keyCollection s msgType2 k msg2 hk hj2 hkey2
  refine ⟨?_, ?_, ?_, ?_, ?_⟩
  · rw [e1]; rfl
  · rw [e1, e2]; rfl
  · rw [e1, e2]
    exact joinedState_fs_of_exists _ _ _ _ _ (joinedState_fileExists _ _ _ _ _)
  · rw [channelSocketHandler_cons, hc1]
    simp only [Bool.false_eq_true, if_false]
    rw [channelSocketHandler_cons, hc2]
    simp only [Bool.false_eq_true, if_false]
    rw [e1, e2]
    rfl
  · intro hex
    rw [e1]
    exact joinedState_fs_of_exists _ _ _ _ _ hex

theorem join_idempotent_witness :
    (handleMessage sampleEnv sampleKeys
        (handleMessage sampleEnv sampleKeys sampleState 1
          (bytesOf "JOIN " ++ sampleKey)).1 2 (bytesOf "JOIN " ++ sampleKey ++ bytesOf "\n")).1.fs =
      (handleMessage sampleEnv sampleKeys sampleState 1 (bytesOf "JOIN " ++ sampleKey)).1.fs :=
  (join_idempotent sampleEnv sampleKeys sampleState 1 2 sampleKey
    (bytesOf "JOIN " ++ sampleKey) (bytesOf "JOIN " ++ sampleKey ++ bytesOf "\n")
    (by decide) (by decide) (by decide) (by decide) (by decide)).2.2.1

/-- C5: for a valid key `k` whose file does not exist, a valid JOIN for `k` adds
exactly one file, at `p2pConfigDir ++ "/" ++ k ++ ".pubkey"`, holding the raw
bytes of `signedKey`; every other path reads as before.  The frame written is
the `%x` encoding of that content, twice as long as the signature. -/
theorem join_creates_record (env : Env) (keyCollection : keys) (st : State)
    (msgType : Int) (k msg : Bytes) (hk : validKey k = true)
    (hj : HasPrefix msg joinMsg = true) (hkey : trimmedPubKey msg = k)
    (hno : fileExists st.fs (pubkeyPath env k) = false) :
    (handleMessage env keyCollection st msgType msg).1.fs =
        (env.p2pConfigDir ++ bytesOf "/" ++ k ++ bytesOf ".pubkey", keyCollection.signedKey) ::
          st.fs ∧
      readFile (handleMessage env keyCollection st msgType msg).1.fs
          (env.p2pConfigDir ++ bytesOf "/" ++ k ++ bytesOf ".pubkey") =
        some keyCollection.signedKey ∧
      (∀ q, q ≠ env.p2pConfigDir ++ bytesOf "/" ++ k ++ bytesOf ".pubkey" →
        readFile (handleMessage env keyCollection st msgType msg).1.fs q = readFile st.fs q) ∧
      (handleMessage env keyCollection st msgType msg).1.sent =
        st.sent ++ [(msgType, sprintfHex keyCollection.signedKey)] ∧
      (sprintfHex keyCollection.signedKey).length = 2 * keyCollection.signedKey.length := by
  have e := handleMessage_of_key env keyCollection st msgType k msg hk hj hkey
  have hfs := joinedState_fs_of_absent env keyCollection st msgType k hno
  have hpath : pubkeyPath env k = env.p2pConfigDir ++ bytesOf "/" ++ k ++ bytesOf ".pubkey" := rfl
  rw [e]
  simp only
  rw [hfs, ← hpath]
  refine ⟨rfl, ?_, ?_, rfl, sprintfHex_length _⟩
  · rw [readFile_cons]; simp
  · intro q hq
    rw [readFile_cons]; simp [hq]

theorem join_creates_record_witness :
    (handleMessage sampleEnv sampleKeys sampleState 1 (bytesOf "JOIN " ++ sampleKey)).1.fs =
      (sampleEnv.p2pConfigDir ++ bytesOf "/" ++ sampleKey ++ bytesOf ".pubkey",
        sampleKeys.signedKey) :: sampleState.fs :=
  (join_creates_record sampleEnv sampleKeys sampleState 1 sampleKey
    (bytesOf "JOIN " ++ sampleKey) (by decide) (by decide) (by decide) (by decide)).1

/-! ## The status queries -/

theorem tags_of_version (msg : Bytes) (h : HasPrefix msg versionMsg = true) :
    HasPrefix msg joinMsg = false ∧ HasPrefix msg peerMsg = false ∧
      HasPrefix msg txMsg = false ∧ HasPrefix msg castMsg = false := by
  obtain ⟨r, rfl⟩ := (HasPrefix_iff _ _).1 h
  rw [joinMsg_eq, versionMsg_eq, peerMsg_eq, txMsg_eq, castMsg_eq]
  refine ⟨?_, ?_, ?_, ?_⟩ <;> exact HasPrefix_false_of_head _ _ _ _ (by decide)

theorem tags_of_peer (msg : Bytes) (h : HasPrefix msg peerMsg = true) :
    HasPrefix msg joinMsg = false ∧ HasPrefix msg versionMsg = false ∧
      HasPrefix msg txMsg = false ∧ HasPrefix msg castMsg = false := by
  obtain ⟨r, rfl⟩ := (HasPrefix_iff _ _).1 h
  rw [joinMsg_eq, versionMsg_eq, peerMsg_eq, txMsg_eq, castMsg_eq]
  refine ⟨?_, ?_, ?_, ?_⟩ <;> exact HasPrefix_false_of_head _ _ _ _ (by decide)

theorem tags_of_tx (msg : Bytes) (h : HasPrefix msg txMsg = true) :
    HasPrefix msg joinMsg = false ∧ HasPrefix msg versionMsg = false ∧
      HasPrefix msg peerMsg = false ∧ HasPrefix msg castMsg = false := by
  obtain ⟨r, rfl⟩ := (HasPrefix_iff _ _).1 h
  rw [joinMsg_eq, versionMsg_eq, peerMsg_eq, txMsg_eq, castMsg_eq]
  refine ⟨?_, ?_, ?_, ?_⟩ <;> exact HasPrefix_false_of_head _ _ _ _ (by decide)

theorem handleMessage_of_version (env : Env) (keyCollection : keys) (st : State)
    (msgType : Int) (msg : Bytes) (h : HasPrefix msg versionMsg = true) :
    handleMessage env keyCollection st msgType msg =
      (WriteMessage st msgType env.semverInfo, true) := by
  obtain ⟨hj, hp, ht, _⟩ := tags_of_version msg h
  rw [handleMessage_of_not_join _ _ _ _ _ hj]
  simp [versionBlock, peerBlock, txBlock, h, hp, ht]

theorem handleMessage_of_peer (env : Env) (keyCollection : keys) (st : State)
    (msgType : Int) (msg : Bytes) (h : HasPrefix msg peerMsg = true) :
    handleMessage env keyCollection st msgType msg =
      (WriteMessage { st with fs := (getPeerID env st.fs).2 } msgType (getPeerID env st.fs).1,
        true) := by
  obtain ⟨hj, hv, ht, _⟩ := tags_of_peer msg h
  rw [handleMessage_of_not_join _ _ _ _ _ hj]
  simp [versionBlock, peerBlock, txBlock, h, hv, ht, WriteMessage]

theorem handleMessage_of_tx (env : Env) (keyCollection : keys) (st : State)
    (msgType : Int) (msg : Bytes) (h : HasPrefix msg txMsg = true) :
    handleMessage env keyCollection st msgType msg =
      (WriteMessage st msgType (getTransactions env st.fs), true) := by
  obtain ⟨hj, hv, hp, _⟩ := tags_of_tx msg h
  rw [handleMessage_of_not_join _ _ _ _ _ hj]
  simp [versionBlock, peerBlock, txBlock, h, hv, hp]

theorem getPeerID_fs (env : Env) (fs : FS) :
    (getPeerID env fs).2 =
      if fileExists fs env.configPeerIDFile then fs else (env.configPeerIDFile, []) :: fs :=
  rfl

theorem getPeerID_readFile_other (env : Env) (fs : FS) (q : Bytes)
    (hq : q ≠ env.configPeerIDFile) :
    readFile (getPeerID env fs).2 q = readFile fs q := by
  rw [getPeerID_fs]
  split
  · rfl
  · rw [readFile_cons]; simp [hq]

theorem getPeerID_readFile_existing (env : Env) (fs : FS) (q : Bytes)
    (hq : fileExists fs q = true) :
    readFile (getPeerID env fs).2 q = readFile fs q := by
  rw [getPeerID_fs]
  split
  · rfl
  · rename_i hne
    have : q ≠ env.configPeerIDFile := by
      rintro rfl
      exact hne hq
    rw [readFile_cons]; simp [this]

theorem pubkeySuffix_eq : bytesOf ".pubkey" = [46, 112, 117, 98, 107, 101, 121] := by decide

theorem pubkeyPath_getLast (env : Env) (key : Bytes) :
    (pubkeyPath env key).getLast? = some 121 := by
  unfold pubkeyPath
  rw [pubkeySuffix_eq, List.getLast?_append]
  rfl

theorem channelSocketHandler_append_open (env : Env) (keyCollection : keys)
    (pre rest : List ReadResult) :
    ∀ st st1, channelSocketHandler env keyCollection st pre = (st1, true) →
      channelSocketHandler env keyCollection st (pre ++ rest) =
        channelSocketHandler env keyCollection st1 rest := by
  induction pre with
  | nil =>
    intro st st1 h
    simp only [channelSocketHandler, Prod.mk.injEq, and_true] at h
    rw [h, List.nil_append]
  | cons r pre ih =>
    intro st st1 h
    cases r with
    | error => simp [channelSocketHandler] at h
    | message msgType msg =>
      rw [List.cons_append, channelSocketHandler_cons]
      rw [channelSocketHandler_cons] at h
      cases hc : closes (ReadResult.message msgType msg) with
      | true => simp [hc] at h
      | false =>
        simp only [hc, Bool.false_eq_true, if_false] at h ⊢
        exact ih _ _ h

theorem channelSocketHandler_single (env : Env) (keyCollection : keys) (st : State)
    (msgType : Int) (msg : Bytes) :
    channelSocketHandler env keyCollection st [ReadResult.message msgType msg] =
      handleMessage env keyCollection st msgType msg := by
  rw [channelSocketHandler_cons]
  cases hc : closes (ReadResult.message msgType msg) with
  | true => rw [handleMessage_of_closes _ _ _ _ _ hc]; simp
  | false =>
    have hflag := handleMessage_flag env keyCollection st msgType msg
    rw [hc] at hflag
    simp only [Bool.false_eq_true, if_false, channelSocketHandler]
    exact Prod.ext rfl hflag.symm

/-- C6: a frame that begins with VERSION, PEER or TRANSACTIONS is answered in
every session state, also after any frames handled before it on the channel:
exactly one frame is written, under the frame type of the inbound frame, and the
session stays open.  The bytes written are exactly `semverInfo()`, exactly
`getPeerID()`, exactly `getTransactions()`.  VERSION and TRANSACTIONS leave the
file system as it is; PEER leaves every existing file and every path other than
the peer.id file as it is, so no attestation record changes as long as the
peer.id file is not itself an attestation file. -/
theorem status_queries_answer (env : Env) (keyCollection : keys) (st : State)
    (msgType : Int) (msg : Bytes) :
    (HasPrefix msg versionMsg = true →
        handleMessage env keyCollection st msgType msg =
          ({ sent := st.sent ++ [(msgType, env.semverInfo)], fs := st.fs }, true)) ∧
      (HasPrefix msg peerMsg = true →
        handleMessage env keyCollection st msgType msg =
            ({ sent := st.sent ++ [(msgType, (getPeerID env st.fs).1)],
               fs := (getPeerID env st.fs).2 }, true) ∧
          (∀ q, fileExists st.fs q = true →
            readFile (getPeerID env st.fs).2 q = readFile st.fs q) ∧
          (∀ q, q ≠ env.configPeerIDFile →
            readFile (getPeerID env st.fs).2 q = readFile st.fs q) ∧
          ((∀ key, pubkeyPath env key ≠ env.configPeerIDFile) →
            ∀ key, attestation env (getPeerID env st.fs).2 key = attestation env st.fs key)) ∧
      (HasPrefix msg txMsg = true →
        handleMessage env keyCollection st msgType msg =
          ({ sent := st.sent ++ [(msgType, getTransactions env st.fs)], fs := st.fs }, true)) ∧
      (HasPrefix msg versionMsg = true ∨ HasPrefix msg peerMsg = true ∨
          HasPrefix msg txMsg = true →
        ∀ (st0 : State) (pre : List ReadResult),
          channelSocketHandler env keyCollection st0 pre = (st, true) →
          channelSocketHandler env keyCollection st0 (pre ++ [ReadResult.message msgType msg]) =
            handleMessage env keyCollection st msgType msg) := by
  refine ⟨?_, ?_, ?_, ?_⟩
  · intro h
    rw [handleMessage_of_version _ _ _ _ _ h]; rfl
  · intro h
    refine ⟨?_, getPeerID_readFile_existing env st.fs, getPeerID_readFile_other env st.fs, ?_⟩
    · rw [handleMessage_of_peer _ _ _ _ _ h]; rfl
    · intro hcfg key
      exact getPeerID_readFile_other env st.fs _ (hcfg key)
  · intro h
    rw [handleMessage_of_tx _ _ _ _ _ h]; rfl
  · intro _ st0 pre hpre
    rw [channelSocketHandler_append_open env keyCollection pre _ st0 st hpre,
      channelSocketHandler_single]

theorem status_queries_answer_witness :
    handleMessage sampleEnv sampleKeys sampleState 1 (bytesOf "VERSION") =
        ({ sent := sampleState.sent ++ [(1, bytesOf "0.1.0")], fs := sampleState.fs }, true) ∧
      attestation sampleEnv (getPeerID sampleEnv sampleState.fs).2 sampleKey =
        attestation sampleEnv sampleState.fs sampleKey ∧
      handleMessage sampleEnv sampleKeys sampleState 2 (bytesOf "TRANSACTIONS") =
        ({ sent := sampleState.sent ++ [(2, getTransactions sampleEnv sampleState.fs)],
           fs := sampleState.fs }, true) :=
  ⟨(status_queries_answer sampleEnv sampleKeys sampleState 1 (bytesOf "VERSION")).1 (by decide),
    ((status_queries_answer sampleEnv sampleKeys sampleState 1 (bytesOf "PEER")).2.1
      (by decide)).2.2.2 (by
        intro key h
        have hl := pubkeyPath_getLast sampleEnv key
        rw [h] at hl
        revert hl
        decide) sampleKey,
    (status_queries_answer sampleEnv sampleKeys sampleState 2 (bytesOf "TRANSACTIONS")).2.2.1
      (by decide)⟩

/-! ## Dispatch -/

theorem tags_of_cast (msg : Bytes) (h : HasPrefix msg castMsg = true) :
    HasPrefix msg joinMsg = false ∧ HasPrefix msg versionMsg = false ∧
      HasPrefix msg peerMsg = false ∧ HasPrefix msg txMsg = false := by
  obtain ⟨r, rfl⟩ := (HasPrefix_iff _ _).1 h
  rw [joinMsg_eq, versionMsg_eq, peerMsg_eq, txMsg_eq, castMsg_eq]
  refine ⟨?_, ?_, ?_, ?_⟩ <;> exact HasPrefix_false_of_head _ _ _ _ (by decide)

theorem handleMessage_of_unmatched (env : Env) (keyCollection : keys) (st : State)
    (msgType : Int) (msg : Bytes) (hj : HasPrefix msg joinMsg = false)
    (hv : HasPrefix msg versionMsg = false) (hp : HasPrefix msg peerMsg = false)
    (ht : HasPrefix msg txMsg = false) :
    handleMessage env keyCollection st msgType msg = (st, true) := by
  rw [handleMessage_of_not_join _ _ _ _ _ hj]
  simp [versionBlock, peerBlock, txBlock, hv, hp, ht]

theorem handleMessage_of_join (env : Env) (keyCollection : keys) (st : State)
    (msgType : Int) (msg : Bytes) (hj : HasPrefix msg joinMsg = true) :
    handleMessage env keyCollection st msgType msg =
      if validKey (trimmedPubKey msg) then
        (joinedState env keyCollection st msgType (trimmedPubKey msg), true)
      else (st, false) := by
  cases hk : validKey (trimmedPubKey msg) with
  | true =>
    rw [handleMessage_of_accepted _ _ _ _ _ ((joinAccepted_iff_validKey msg).2 ⟨hj, hk⟩)]
    simp
  | false =>
    have hrej : joinAccepted msg = false := by
      cases h : joinAccepted msg with
      | false => rfl
      | true =>
        rw [((joinAccepted_iff_validKey msg).1 h).2] at hk
        exact absurd hk (by decide)
    rw [handleMessage_of_rejected _ _ _ _ _ hj hrej]
    simp

theorem handleMessage_eq_dispatch (env : Env) (keyCollection : keys) (st : State)
    (msgType : Int) (msg : Bytes) :
    handleMessage env keyCollection st msgType msg =
      dispatch env keyCollection st msgType msg := by
  unfold dispatch parseMessage
  cases hj : HasPrefix msg joinMsg with
  | true => simp only [if_true]; exact handleMessage_of_join _ _ _ _ _ hj
  | false =>
    cases hv : HasPrefix msg versionMsg with
    | true => simp only [Bool.false_eq_true, if_false, if_true]
              exact handleMessage_of_version _ _ _ _ _ hv
    | false =>
      cases hp : HasPrefix msg peerMsg with
      | true => simp only [Bool.false_eq_true, if_false, if_true]
                exact handleMessage_of_peer _ _ _ _ _ hp
      | false =>
        cases ht : HasPrefix msg txMsg with
        | true => simp only [Bool.false_eq_true, if_false, if_true]
                  exact handleMessage_of_tx _ _ _ _ _ ht
        | false =>
          rw [handleMessage_of_unmatched _ _ _ _ _ hj hv hp ht]
          cases hc : HasPrefix msg castMsg <;> simp

theorem tags_at_most_one (msg : Bytes) :
    ([joinMsg, versionMsg, peerMsg, txMsg].filter (fun t => HasPrefix msg t)).length ≤ 1 := by
  cases hj : HasPrefix msg joinMsg with
  | true =>
    obtain ⟨hv, hp, ht, _⟩ := not_other_tags_of_join msg hj
    simp [List.filter, hj, hv, hp, ht]
  | false =>
    cases hv : HasPrefix msg versionMsg with
    | true =>
      obtain ⟨_, hp, ht, _⟩ := tags_of_version msg hv
      simp [List.filter, hj, hv, hp, ht]
    | false =>
      cases hp : HasPrefix msg peerMsg with
      | true =>
        obtain ⟨_, _, ht, _⟩ := tags_of_peer msg hp
        simp [List.filter, hj, hv, hp, ht]
      | false =>
        cases ht : HasPrefix msg txMsg <;> simp [List.filter, hj, hv, hp, ht]

theorem dispatch_sent (env : Env) (keyCollection : keys) (st : State) (msgType : Int)
    (msg : Bytes) :
    ∃ rs, (dispatch env keyCollection st msgType msg).1.sent = st.sent ++ rs ∧
      rs.length ≤ 1 := by
  unfold dispatch
  cases parseMessage msg with
  | Join =>
    simp only
    split
    · exact ⟨[(msgType, sprintfHex keyCollection.signedKey)], rfl, by simp⟩
    · exact ⟨[], by simp, by simp⟩
  | Version => exact ⟨[(msgType, env.semverInfo)], rfl, by simp⟩
  | Peer => exact ⟨[(msgType, (getPeerID env st.fs).1)], rfl, by simp⟩
  | Transactions => exact ⟨[(msgType, getTransactions env st.fs)], rfl, by simp⟩
  | Cast => exact ⟨[], by simp, by simp⟩
  | Unknown => exact ⟨[], by simp, by simp⟩

/-- C7: the chain of four prefix tests of the loop body computes the same state
and the same open/closed flag as the parse-once dispatch, for every frame.  At
most one of the four tags is a prefix of a frame, and a frame adds at most one
written frame.  A frame with none of the four tags, which includes every frame
beginning with CAST and the empty frame, writes nothing, changes no file and
leaves the session open. -/
theorem chain_refines_dispatch (env : Env) (keyCollection : keys) (st : State)
    (msgType : Int) (msg : Bytes) :
    handleMessage env keyCollection st msgType msg =
        dispatch env keyCollection st msgType msg ∧
      ([joinMsg, versionMsg, peerMsg, txMsg].filter (fun t => HasPrefix msg t)).length ≤ 1 ∧
      (∃ rs, (handleMessage env keyCollection st msgType msg).1.sent = st.sent ++ rs ∧
        rs.length ≤ 1) ∧
      (HasPrefix msg joinMsg = false → HasPrefix msg versionMsg = false →
        HasPrefix msg peerMsg = false → HasPrefix msg txMsg = false →
        handleMessage env keyCollection st msgType msg = (st, true)) ∧
      (HasPrefix msg castMsg = true →
        handleMessage env keyCollection st msgType msg = (st, true)) ∧
      handleMessage env keyCollection st msgType [] = (st, true) := by
  refine ⟨handleMessage_eq_dispatch _ _ _ _ _, tags_at_most_one msg, ?_,
    handleMessage_of_unmatched _ _ _ _ _, ?_, ?_⟩
  · rw [handleMessage_eq_dispatch]
    exact dispatch_sent _ _ _ _ _
  · intro hc
    obtain ⟨hj, hv, hp, ht⟩ := tags_of_cast msg hc
    exact handleMessage_of_unmatched _ _ _ _ _ hj hv hp ht
  · exact handleMessage_of_unmatched _ _ _ _ _ (by decide) (by decide) (by decide) (by decide)

theorem chain_refines_dispatch_witness :
    handleMessage sampleEnv sampleKeys sampleState 1 (bytesOf "CAST hello") =
        (sampleState, true) ∧
      handleMessage sampleEnv sampleKeys sampleState 1 (bytesOf "HELLO") =
        (sampleState, true) :=
  ⟨(chain_refines_dispatch sampleEnv sampleKeys sampleState 1 (bytesOf "CAST hello")).2.2.2.2.1
      (by decide),
    (chain_refines_dispatch sampleEnv sampleKeys sampleState 1 (bytesOf "HELLO")).2.2.2.1
      (by decide) (by decide) (by decide) (by decide)⟩

/-! ## The session loop -/

theorem handleAll_cons (env : Env) (keyCollection : keys) (st : State) (f : Int × Bytes)
    (rest : List (Int × Bytes)) :
    handleAll env keyCollection st (f :: rest) =
      handleAll env keyCollection (handleMessage env keyCollection st f.1 f.2).1 rest := rfl

theorem frameResponse_spec (env : Env) (keyCollection : keys) (st : State) (f : Int × Bytes) :
    (handleMessage env keyCollection st f.1 f.2).1.sent =
      st.sent ++ frameResponse env keyCollection st f := by
  obtain ⟨rs, hrs, _⟩ := dispatch_sent env keyCollection st f.1 f.2
  rw [← handleMessage_eq_dispatch] at hrs
  unfold frameResponse
  rw [hrs, List.drop_left]

theorem handleAll_sent (env : Env) (keyCollection : keys) (frames : List (Int × Bytes)) :
    ∀ st, (handleAll env keyCollection st frames).sent =
      st.sent ++ responses env keyCollection st frames := by
  induction frames with
  | nil => intro st; simp [handleAll, responses]
  | cons f rest ih =>
    intro st
    rw [handleAll_cons, ih, frameResponse_spec, responses, List.append_assoc]

theorem channelSocketHandler_of_closes (env : Env) (keyCollection : keys) (st : State)
    (c : ReadResult) (rest : List ReadResult) (hc : closes c = true) :
    channelSocketHandler env keyCollection st (c :: rest) = (st, false) := by
  cases c with
  | error => rfl
  | message msgType msg => rw [channelSocketHandler_cons, hc]; simp

theorem channelSocketHandler_frames (env : Env) (keyCollection : keys)
    (pre : List (Int × Bytes)) (tail : List ReadResult)
    (hpre : ∀ f ∈ pre, closes (toRead f) = false) :
    ∀ st, channelSocketHandler env keyCollection st (pre.map toRead ++ tail) =
      channelSocketHandler env keyCollection (handleAll env keyCollection st pre) tail := by
  induction pre with
  | nil => intro st; rfl
  | cons f pre ih =>
    intro st
    have hf : closes (ReadResult.message f.1 f.2) = false := hpre f (by simp)
    rw [List.map_cons, List.cons_append, toRead, channelSocketHandler_cons, hf, handleAll_cons]
    simp only [Bool.false_eq_true, if_false]
    exact ih (fun g hg => hpre g (by simp [hg])) _

theorem channelSocketHandler_eq (env : Env) (keyCollection : keys)
    (events : List ReadResult) :
    ∀ st, channelSocketHandler env keyCollection st events =
      (handleAll env keyCollection st (framesBeforeClose events), !events.any closes) := by
  induction events with
  | nil => intro st; rfl
  | cons r rest ih =>
    intro st
    cases r with
    | error => rfl
    | message msgType msg =>
      rw [channelSocketHandler_cons]
      cases hc : closes (ReadResult.message msgType msg) with
      | true => simp [framesBeforeClose, hc, handleAll]
      | false =>
        simp only [Bool.false_eq_true, if_false, framesBeforeClose, hc, List.any_cons,
          Bool.false_or]
        rw [ih, handleAll_cons]

/-- C8: frames are handled in arrival order and closing is final.  When the
frames `pre` read on a channel are followed by a read result on which the
handler returns (a read error, or a JOIN frame failing validation), the state
the handler leaves is the one obtained by handling the frames of `pre` one after
the other, the frames written are the per-frame responses of `pre` in order, the
channel is closed, and nothing read after that point has any effect.  While no
such read result has arrived the session is open with the same state.  For any
sequence of read results the handler leaves the state of the frames before the
first closing one. -/
theorem closing_is_final (env : Env) (keyCollection : keys) (st : State)
    (pre : List (Int × Bytes)) (c : ReadResult) (rest : List ReadResult)
    (hpre : ∀ f ∈ pre, closes (toRead f) = false) (hc : closes c = true) :
    channelSocketHandler env keyCollection st (pre.map toRead ++ c :: rest) =
        (handleAll env keyCollection st pre, false) ∧
      channelSocketHandler env keyCollection st (pre.map toRead) =
        (handleAll env keyCollection st pre, true) ∧
      (handleAll env keyCollection st pre).sent =
        st.sent ++ responses env keyCollection st pre ∧
      (∀ events : List ReadResult, channelSocketHandler env keyCollection st events =
        (handleAll env keyCollection st (framesBeforeClose events), !events.any closes)) := by
  refine ⟨?_, ?_, handleAll_sent _ _ _ _, fun events => channelSocketHandler_eq _ _ events st⟩
  · rw [channelSocketHandler_frames env keyCollection pre _ hpre,
      channelSocketHandler_of_closes _ _ _ _ _ hc]
  · have h := channelSocketHandler_frames env keyCollection pre [] hpre st
    rw [List.append_nil] at h
    rw [h]
    rfl

theorem closing_is_final_witness :
    channelSocketHandler sampleEnv sampleKeys sampleState
        ([(1, bytesOf "VERSION"), (2, bytesOf "JOIN " ++ sampleKey)].map toRead ++
          ReadResult.message 1 (bytesOf "JOIN short") ::
            [ReadResult.message 1 (bytesOf "VERSION")]) =
      (handleAll sampleEnv sampleKeys sampleState
        [(1, bytesOf "VERSION"), (2, bytesOf "JOIN " ++ sampleKey)], false) :=
  (closing_is_final sampleEnv sampleKeys sampleState
    [(1, bytesOf "VERSION"), (2, bytesOf "JOIN " ++ sampleKey)]
    (ReadResult.message 1 (bytesOf "JOIN short")) [ReadResult.message 1 (bytesOf "VERSION")]
    (by decide) (by decide)).1

/-! ## The exact set of accepted JOIN frames -/

theorem inClass_ne_join {a : UInt8} (h : inClass a = true) :
    a ≠ 74 ∧ a ≠ 79 ∧ a ≠ 73 ∧ a ≠ 78 := by
  refine ⟨?_, ?_, ?_, ?_⟩ <;> (rintro rfl; revert h; decide)

theorem trimmedPubKey_decomp (msg : Bytes) :
    ∃ s n, msg = s ++ trimmedPubKey msg ++ List.replicate n 10 ∧
      ∀ b ∈ s, (bytesOf "JOIN ").contains b = true := by
  obtain ⟨n, hn, _⟩ := TrimRight_decomp msg
  obtain ⟨s, hs, hcut, _⟩ := TrimLeft_decomp (TrimRight msg (bytesOf "\n")) (bytesOf "JOIN ")
  refine ⟨s, n, ?_, hcut⟩
  have hk : trimmedPubKey msg = TrimLeft (TrimRight msg (bytesOf "\n")) (bytesOf "JOIN ") := rfl
  rw [hk, ← hs]
  exact hn

theorem tag_of_decomp (s k r t : Bytes) (hk : validKey k = true)
    (h : s ++ k ++ t = joinMsg ++ r) : HasPrefix s joinMsg = true := by
  obtain ⟨a, k1, rfl, ha⟩ := validKey_head k hk
  obtain ⟨h1, h2, h3, h4⟩ := inClass_ne_join ha
  rw [joinMsg_eq] at h ⊢
  rcases s with _ | ⟨x, _ | ⟨y, _ | ⟨z, _ | ⟨w, s1⟩⟩⟩⟩
  · simp only [List.nil_append, List.cons_append, List.cons.injEq] at h
    exact absurd h.1 h1
  · simp only [List.nil_append, List.cons_append, List.cons.injEq] at h
    exact absurd h.2.1 h2
  · simp only [List.nil_append, List.cons_append, List.cons.injEq] at h
    exact absurd h.2.2.1 h3
  · simp only [List.nil_append, List.cons_append, List.cons.injEq] at h
    exact absurd h.2.2.2.1 h4
  · simp only [List.cons_append, List.cons.injEq] at h
    obtain ⟨rfl, rfl, rfl, rfl, _⟩ := h
    exact (HasPrefix_iff _ _).2 ⟨s1, rfl⟩

theorem joinAccepted_iff_form (msg : Bytes) :
    joinAccepted msg = true ↔
      ∃ s k n, msg = s ++ k ++ List.replicate n 10 ∧ HasPrefix s joinMsg = true ∧
        (∀ b ∈ s, b ∈ bytesOf "JOIN ") ∧ validKey k = true := by
  constructor
  · intro h
    obtain ⟨hj, hk⟩ := (joinAccepted_iff_validKey msg).1 h
    obtain ⟨s, n, hmsg, hcut⟩ := trimmedPubKey_decomp msg
    obtain ⟨r, hr⟩ := (HasPrefix_iff _ _).1 hj
    refine ⟨s, trimmedPubKey msg, n, hmsg, ?_, ?_, hk⟩
    · exact tag_of_decomp s _ r _ hk (hmsg.symm.trans hr)
    · intro b hb
      have := hcut b hb
      simpa using this
  · rintro ⟨s, k, n, rfl, hj, hcut, hk⟩
    exact joinAccepted_form s k n hk (fun b hb => by simpa using hcut b hb) hj

theorem joinBlock_silent_of_not_accepted (env : Env) (keyCollection : keys) (st : State)
    (msgType : Int) (msg : Bytes) (h : joinAccepted msg = false) :
    joinBlock env keyCollection st msgType msg = none ∨
      joinBlock env keyCollection st msgType msg = some st := by
  cases hj : HasPrefix msg joinMsg with
  | true => exact Or.inl (joinBlock_of_rejected _ _ _ _ _ hj h)
  | false => exact Or.inr (joinBlock_of_not_join _ _ _ _ _ hj)

/-- C10: the frames the JOIN branch answers are exactly those of the form
`s ++ k ++ n` with `s` made of the bytes `J`, `O`, `I`, `N`, space and beginning
with `JOIN`, `k` a 64-byte key over `a-f0-9`, and `n` any number of newline
bytes.  Such a frame gets the signature response, the session stays open and the
key recorded is `k`; on any other frame the JOIN branch writes nothing and
creates nothing.  The set is strictly larger than the wire format: `"JOIN" ++ k`
and `"JOINJOIN  " ++ k` are accepted with key `k` although neither is
`"JOIN " ++ p` for a 64-byte `p`, while every `"JOIN " ++ p` with `p` a valid key
is accepted with key `p`. -/
theorem join_accepted_frames (env : Env) (keyCollection : keys) (st : State)
    (msgType : Int) (msg : Bytes) :
    (joinAccepted msg = true ↔
        ∃ s k n, msg = s ++ k ++ List.replicate n 10 ∧ HasPrefix s joinMsg = true ∧
          (∀ b ∈ s, b ∈ bytesOf "JOIN ") ∧ validKey k = true) ∧
      (joinAccepted msg = true →
        joinBlock env keyCollection st msgType msg =
            some (joinedState env keyCollection st msgType (trimmedPubKey msg)) ∧
          handleMessage env keyCollection st msgType msg =
            (joinedState env keyCollection st msgType (trimmedPubKey msg), true)) ∧
      (joinAccepted msg = false →
        joinBlock env keyCollection st msgType msg = none ∨
          joinBlock env keyCollection st msgType msg = some st) ∧
      (∀ s k n, msg = s ++ k ++ List.replicate n 10 → HasPrefix s joinMsg = true →
        (∀ b ∈ s, b ∈ bytesOf "JOIN ") → validKey k = true → trimmedPubKey msg = k) ∧
      (∀ k, validKey k = true →
        (joinAccepted (bytesOf "JOIN" ++ k) = true ∧ trimmedPubKey (bytesOf "JOIN" ++ k) = k ∧
          ∀ p : Bytes, p.length = 64 → bytesOf "JOIN" ++ k ≠ bytesOf "JOIN " ++ p) ∧
        (joinAccepted (bytesOf "JOINJOIN  " ++ k) = true ∧
          trimmedPubKey (bytesOf "JOINJOIN  " ++ k) = k ∧
          ∀ p : Bytes, p.length = 64 → bytesOf "JOINJOIN  " ++ k ≠ bytesOf "JOIN " ++ p) ∧
        (joinAccepted (bytesOf "JOIN " ++ k) = true ∧
          trimmedPubKey (bytesOf "JOIN " ++ k) = k)) := by
  refine ⟨joinAccepted_iff_form msg, ?_, joinBlock_silent_of_not_accepted _ _ _ _ _, ?_, ?_⟩
  · intro h
    exact ⟨joinBlock_of_accepted _ _ _ _ _ h, handleMessage_of_accepted _ _ _ _ _ h⟩
  · rintro s k n rfl _ hcut hk
    exact trimmedPubKey_form s k n hk (fun b hb => by simpa using hcut b hb)
  · intro k hk
    have hlen := ((validKey_iff k).1 hk).1
    have hA := joinAccepted_form (bytesOf "JOIN") k 0 hk (by decide) (by decide)
    have hB := joinAccepted_form (bytesOf "JOINJOIN  ") k 0 hk (by decide) (by decide)
    have hC := joinAccepted_form (bytesOf "JOIN ") k 0 hk (by decide) (by decide)
    have kA := trimmedPubKey_form (bytesOf "JOIN") k 0 hk (by decide)
    have kB := trimmedPubKey_form (bytesOf "JOINJOIN  ") k 0 hk (by decide)
    have kC := trimmedPubKey_form (bytesOf "JOIN ") k 0 hk (by decide)
    simp only [List.replicate_zero, List.append_nil] at hA hB hC kA kB kC
    refine ⟨⟨hA, kA, ?_⟩, ⟨hB, kB, ?_⟩, hC, kC⟩
    · intro p hp heq
      have := congrArg List.length heq
      simp only [List.length_append, hlen, hp] at this
      revert this
      decide
    · intro p hp heq
      have := congrArg List.length heq
      simp only [List.length_append, hlen, hp] at this
      revert this
      decide

theorem join_accepted_frames_witness :
    joinAccepted (bytesOf "JOINJOIN  " ++ sampleKey) = true ∧
      handleMessage sampleEnv sampleKeys sampleState 1 (bytesOf "JOINJOIN  " ++ sampleKey) =
        (joinedState sampleEnv sampleKeys sampleState 1
          (trimmedPubKey (bytesOf "JOINJOIN  " ++ sampleKey)), true) ∧
      trimmedPubKey (bytesOf "JOIN" ++ sampleKey) = sampleKey :=
  ⟨by decide,
    ((join_accepted_frames sampleEnv sampleKeys sampleState 1
      (bytesOf "JOINJOIN  " ++ sampleKey)).2.1 (by decide)).2,
    ((join_accepted_frames sampleEnv sampleKeys sampleState 1 []).2.2.2.2
      sampleKey (by decide)).1.2.1⟩

/-! ## Trailing newlines -/

/-- C9, counterexample: on the frame `"JOIN " ++ k ++ "\n\n"` with `k` 64 times
`a`, the right trim removes both newline bytes; the payload is the 64-byte key,
not a 65-byte text, and the frame is answered with the session left open, not
closed without a response. -/
theorem single_newline_counterexample :
    TrimRight (bytesOf "JOIN " ++ sampleKey ++ bytesOf "\n\n") (bytesOf "\n") =
        bytesOf "JOIN " ++ sampleKey ∧
      (trimmedPubKey (bytesOf "JOIN " ++ sampleKey ++ bytesOf "\n\n")).length ≠ 65 ∧
      handleMessage sampleEnv sampleKeys sampleState 1
          (bytesOf "JOIN " ++ sampleKey ++ bytesOf "\n\n") ≠ (sampleState, false) ∧
      (handleMessage sampleEnv sampleKeys sampleState 1
          (bytesOf "JOIN " ++ sampleKey ++ bytesOf "\n\n")).1.sent = [(1, bytesOf "ab01")] ∧
      (handleMessage sampleEnv sampleKeys sampleState 1
          (bytesOf "JOIN " ++ sampleKey ++ bytesOf "\n\n")).2 = true := by
  decide

/-- C9, amended: JOIN handling strips every trailing newline byte of the raw
frame before it removes the leading JOIN bytes.  For every frame the right trim
removes a run of newline bytes and what is left does not end in a newline.  So
for a valid key `k` and any number `m` of trailing newlines the frame
`"JOIN " ++ k` followed by `m` newlines leaves the 64-byte payload `k` and is
answered with the signature, the session staying open. -/
theorem join_strips_all_newlines (env : Env) (keyCollection : keys) (st : State)
    (msgType : Int) (k : Bytes) (m : Nat) (hk : validKey k = true) :
    (∀ msg : Bytes, ∃ n, msg = TrimRight msg (bytesOf "\n") ++ List.replicate n 10 ∧
        ∀ h : TrimRight msg (bytesOf "\n") ≠ [],
          (TrimRight msg (bytesOf "\n")).getLast h ≠ 10) ∧
      TrimRight (bytesOf "JOIN " ++ k ++ List.replicate m 10) (bytesOf "\n") =
        bytesOf "JOIN " ++ k ∧
      trimmedPubKey (bytesOf "JOIN " ++ k ++ List.replicate m 10) = k ∧
      (trimmedPubKey (bytesOf "JOIN " ++ k ++ List.replicate m 10)).length = 64 ∧
      handleMessage env keyCollection st msgType (bytesOf "JOIN " ++ k ++ List.replicate m 10) =
        ({ sent := st.sent ++ [(msgType, sprintfHex keyCollection.signedKey)]
           fs := (joinedState env keyCollection st msgType k).fs }, true) := by
  have hkey := trimmedPubKey_form (bytesOf "JOIN ") k m hk joinToken_cutset
  have hacc := joinAccepted_form (bytesOf "JOIN ") k m hk joinToken_cutset joinToken_tag
  refine ⟨TrimRight_decomp, ?_, hkey, ?_, ?_⟩
  · exact TrimRight_append_newlines _ m (fun h => validKey_getLast k hk _ h)
  · rw [hkey]
    exact ((validKey_iff k).1 hk).1
  · rw [handleMessage_of_accepted _ _ _ _ _ hacc, hkey]
    rfl

theorem join_strips_all_newlines_witness :
    validKey sampleKey = true ∧
      trimmedPubKey (bytesOf "JOIN " ++ sampleKey ++ List.replicate 2 10) = sampleKey ∧
      handleMessage sampleEnv sampleKeys sampleState 1
          (bytesOf "JOIN " ++ sampleKey ++ List.replicate 2 10) =
        ({ sent := sampleState.sent ++ [(1, sprintfHex sampleKeys.signedKey)]
           fs := (joinedState sampleEnv sampleKeys sampleState 1 sampleKey).fs }, true) :=
  ⟨by decide,
    (join_strips_all_newlines sampleEnv sampleKeys sampleState 1 sampleKey 2 (by decide)).2.2.1,
    (join_strips_all_newlines sampleEnv sampleKeys sampleState 1 sampleKey 2
      (by decide)).2.2.2.2⟩

end Karai
